import Mathlib

/-!
Shallow embedding of `src/main.rs` (a brainfuck parser and interpreter) and
proofs about it.

Conventions of the embedding:
* Rust `u8` cell arithmetic wraps, modelled as `Nat` arithmetic `% 256`.
* Rust `usize` index arithmetic wraps modulo `2 ^ 64` (the compile target of
  this pre-1.0 crate has no overflow checks; the spec likewise describes the
  bounded tape's boundary behaviour as unsigned-index underflow).  `USIZE`
  below is `2 ^ 64`.
* A Rust panic (out-of-bounds `Vec` indexing, `%` by zero) is modelled as
  `none` / a `fault` outcome.
* The byte source is a list of read events; an exhausted list is a persistent
  end-of-stream.  `Read::read` returning `Ok(0)` (EOF) leaves the 1-byte
  buffer `[0u8; 1]` untouched, so the code's `Ok(_)` arm writes the byte `0`
  into the current cell; the code's `Err(_)` arm does nothing and continues.
-/

/-- Mirrors `enum Op` of the source: one constructor per brainfuck
instruction; the loop instructions carry a `usize` target. -/
inductive Op where
  | inc
  | dec
  | left
  | right
  | read
  | write
  | loopStart (target : Nat)
  | loopEnd (target : Nat)
  deriving DecidableEq, Repr

/-- Mirrors `enum ParseError` of the source: each variant carries the index
of the offending character in the original program source. -/
inductive ParseError where
  | unmatchedLoopStart (i : Nat)
  | unmatchedLoopEnd (i : Nat)
  deriving DecidableEq, Repr

/-- The scan loop of `fn parse`.  `i` is the index of the next character in
the original source (Rust's `program.chars().enumerate()`), `ops` the
instructions emitted so far (Rust pushes at the end of the `Vec`), and
`stack` the pending-`[` stack, most recent first (so Rust's
`loop_stack.pop()` is the head and `loop_stack[0]` is the last element).
On `'['` the source pushes the SOURCE index `i` and emits `LoopStart(0)`;
on `']'` it pops and emits `LoopEnd(popped)`.  The `LoopStart(0)`
placeholder is never patched afterwards: the embedding reproduces this
faithfully. -/
def parseGo : List Char → Nat → List Op → List Nat → Except ParseError (List Op)
  | [], _, ops, stack =>
    match stack.getLast? with
    | none => .ok ops
    | some first => .error (.unmatchedLoopStart first)
  | c :: rest, i, ops, stack =>
    if c = '+' then parseGo rest (i + 1) (ops ++ [.inc]) stack
    else if c = '-' then parseGo rest (i + 1) (ops ++ [.dec]) stack
    else if c = '<' then parseGo rest (i + 1) (ops ++ [.left]) stack
    else if c = '>' then parseGo rest (i + 1) (ops ++ [.right]) stack
    else if c = ',' then parseGo rest (i + 1) (ops ++ [.read]) stack
    else if c = '.' then parseGo rest (i + 1) (ops ++ [.write]) stack
    else if c = '[' then parseGo rest (i + 1) (ops ++ [.loopStart 0]) (i :: stack)
    else if c = ']' then
      match stack with
      | top :: stack' => parseGo rest (i + 1) (ops ++ [.loopEnd top]) stack'
      | [] => .error (.unmatchedLoopEnd i)
    else parseGo rest (i + 1) ops stack

/-- Mirrors `fn parse(program: &str) -> Result<Vec<Op>, ParseError>`. -/
def parse (program : String) : Except ParseError (List Op) :=
  parseGo program.data 0 [] []

/-- State of either tape struct: the cursor `pos: usize` and the backing
byte store `data: Vec<u8>`. -/
structure TapeState where
  pos : Nat
  data : List Nat
  deriving DecidableEq, Repr

/-- The wrap modulus of Rust `usize` arithmetic on the 64-bit target. -/
def USIZE : Nat := 2 ^ 64

/-- Mirrors `self.data[self.pos] += 1` (both tape impls repeat this line
verbatim): panics (`none`) if the cursor is out of bounds, otherwise bumps
the current cell with `u8` wraparound. -/
def cellInc (t : TapeState) : Option TapeState :=
  match t.data[t.pos]? with
  | some v => some { t with data := t.data.set t.pos ((v + 1) % 256) }
  | none => none

/-- Mirrors `self.data[self.pos] -= 1` (both tape impls): `u8` subtraction
wraps, so `v - 1` is `(v + 255) % 256`. -/
def cellDec (t : TapeState) : Option TapeState :=
  match t.data[t.pos]? with
  | some v => some { t with data := t.data.set t.pos ((v + 255) % 256) }
  | none => none

/-- Mirrors `fn read(&self) -> u8 { self.data[self.pos] }` (both impls). -/
def cellRead (t : TapeState) : Option Nat :=
  t.data[t.pos]?

/-- Mirrors `fn write(&mut self, byte: u8) { self.data[self.pos] = byte; }`
(both impls). -/
def cellWrite (b : Nat) (t : TapeState) : Option TapeState :=
  if t.pos < t.data.length then some { t with data := t.data.set t.pos b }
  else none

/-- The capability set of `trait Tape`; each operation may panic (`none`). -/
structure TapeImpl where
  go_left : TapeState → Option TapeState
  go_right : TapeState → Option TapeState
  inc : TapeState → Option TapeState
  dec : TapeState → Option TapeState
  read : TapeState → Option Nat
  write : Nat → TapeState → Option TapeState

/-- Mirrors `impl Tape for SimpleTape`: `go_left` is `self.pos -= 1` and
`go_right` is `self.pos += 1`, both plain `usize` arithmetic that wraps
modulo `2 ^ 64` with no bounds check; the cell operations index `data`. -/
def simpleTape : TapeImpl where
  go_left t := some { t with pos := (t.pos + (USIZE - 1)) % USIZE }
  go_right t := some { t with pos := (t.pos + 1) % USIZE }
  inc := cellInc
  dec := cellDec
  read := cellRead
  write := cellWrite

/-- Mirrors `impl Tape for CircularTape`: `go_left` is
`self.pos = (self.pos - 1) % self.data.len()` — the subtraction wraps
modulo `2 ^ 64` BEFORE the reduction modulo the capacity — and `go_right`
is `self.pos = (self.pos + 1) % self.data.len()`.  `%` by a zero length
panics (`none`). -/
def circularTape : TapeImpl where
  go_left t :=
    if t.data.length = 0 then none
    else some { t with pos := ((t.pos + (USIZE - 1)) % USIZE) % t.data.length }
  go_right t :=
    if t.data.length = 0 then none
    else some { t with pos := ((t.pos + 1) % USIZE) % t.data.length }
  inc := cellInc
  dec := cellDec
  read := cellRead
  write := cellWrite

/-- One result of the byte source's "attempt to read one byte": either a
byte was delivered, or the source reported an I/O failure.  End-of-stream
is modelled by exhaustion of the event list. -/
inductive ReadEvent where
  | ok (b : Nat)
  | ioErr
  deriving DecidableEq, Repr

/-- Machine state of `fn execute`: the instruction pointer, the tape, the
remaining input events and the bytes written to the output sink so far. -/
structure ExecState where
  ip : Nat
  tape : TapeState
  input : List ReadEvent
  output : List Nat
  deriving DecidableEq, Repr

/-- Outcome of one iteration of the `while ip < program.len()` loop:
the loop exits (`halt`), continues with a new state (`cont`), or the
process panics (`fault`). -/
inductive StepRes where
  | halt (s : ExecState)
  | cont (s : ExecState)
  | fault
  deriving DecidableEq, Repr

/-- Lift a tape operation into the fetch-execute loop: apply it and advance
the instruction pointer, or fault if it panics. -/
def liftTape (f : TapeState → Option TapeState) (s : ExecState) : StepRes :=
  match f s.tape with
  | some t => .cont { s with tape := t, ip := s.ip + 1 }
  | none => .fault

/-- The `Op::Read` arm of the interpreter loop.  It mirrors the source's
`match input.read(&mut byte) - Ok(_) => tape.write(byte[0]), Err(_) => ()`:
a delivered byte is written to the cell; end-of-stream is `Ok(0)` with the
zeroed buffer `[0u8; 1]` untouched, so the byte `0` is written; an I/O
failure is silently skipped and execution continues. -/
def readStep (T : TapeImpl) (s : ExecState) : StepRes :=
  match s.input with
  | [] => liftTape (T.write 0) s
  | .ok b :: restIn =>
    match T.write b s.tape with
    | some t => .cont { s with tape := t, input := restIn, ip := s.ip + 1 }
    | none => .fault
  | .ioErr :: restIn => .cont { s with input := restIn, ip := s.ip + 1 }

/-- One iteration of the interpreter loop of `fn execute`, for a tape
implementation `T`.  Loop jumps set `ip` to the stored target; the trailing
`ip += 1` of the source loop is folded into every arm. -/
def step (T : TapeImpl) (prog : List Op) (s : ExecState) : StepRes :=
  match prog[s.ip]? with
  | none => .halt s
  | some .inc => liftTape T.inc s
  | some .dec => liftTape T.dec s
  | some .left => liftTape T.go_left s
  | some .right => liftTape T.go_right s
  | some .read => readStep T s
  | some .write =>
    match T.read s.tape with
    | some b => .cont { s with output := s.output ++ [b], ip := s.ip + 1 }
    | none => .fault
  | some (.loopStart target) =>
    match T.read s.tape with
    | some v => .cont { s with ip := if v = 0 then target + 1 else s.ip + 1 }
    | none => .fault
  | some (.loopEnd target) =>
    match T.read s.tape with
    | some v => .cont { s with ip := if v ≠ 0 then target + 1 else s.ip + 1 }
    | none => .fault

/-- Fuelled interpreter loop: `some` is normal termination of `execute`
(the instruction pointer reached `program.len()`), `none` is a panic or
fuel exhaustion. -/
def run (T : TapeImpl) (prog : List Op) : Nat → ExecState → Option ExecState
  | 0, _ => none
  | fuel + 1, s =>
    match step T prog s with
    | .halt s' => some s'
    | .cont s' => run T prog fuel s'
    | .fault => none

/-- Initial machine state: `SimpleTape::new(n)` / `CircularTape::new(n)`
zero-fill the store and start the cursor at 0; `ip` starts at 0 and the
output sink is empty. -/
def initState (n : Nat) (inp : List ReadEvent) : ExecState :=
  { ip := 0
    tape := { pos := 0, data := List.replicate n 0 }
    input := inp
    output := [] }

/-- Decidable check of the mutual-target invariant claimed by the spec: for
every `LoopStart` at position `p` with target `t`, the instruction at index
`t` is a `LoopEnd` whose own target is `p`. -/
def mutualTargetsB (prog : List Op) : Bool :=
  (List.range prog.length).all fun p =>
    match prog[p]? with
    | some (Op.loopStart t) =>
      match prog[t]? with
      | some (Op.loopEnd q) => q == p
      | _ => false
    | _ => true

/-- Monitoring tape for the side condition of the bounded/circular
equivalence claim, modelled from the spec's words rather than the source:
identical to the two source tapes on the cell operations, but movement
fails outright exactly when the side condition is violated — moving left
from cursor 0 or right from the last cell.  A successful `run strictTape`
is precisely a bounded-tape execution that terminates without ever moving
left from cursor 0 or right from cursor `capacity - 1`. -/
def strictTape : TapeImpl where
  go_left t := if t.pos = 0 then none else some { t with pos := t.pos - 1 }
  go_right t :=
    if t.pos + 1 < t.data.length then some { t with pos := t.pos + 1 } else none
  inc := cellInc
  dec := cellDec
  read := cellRead
  write := cellWrite

/-- The program of `hello_world.bf`, as quoted by the spec's end-to-end
property. -/
def helloSrc : String :=
  "++++++++[>++++[>++>+++>+++>+<<<<-]>+>+>->>+[<]<-]>>.>---.+++++++..+++.>>.<-.<.+++.------.--------.>>+.>++."

/-- The byte sequence of the text `Hello World!` followed by a newline. -/
def helloBytes : List Nat :=
  [72, 101, 108, 108, 111, 32, 87, 111, 114, 108, 100, 33, 10]

/-! Helper lemmas: the cell operations preserve the cursor and the store
length, and the `usize` wrap arithmetic of the movement operations agrees
with plain `±1` away from the edges. -/

lemma cellInc_pres {t t' : TapeState} (h : cellInc t = some t') :
    t'.pos = t.pos ∧ t'.data.length = t.data.length := by
  unfold cellInc at h
  cases hv : t.data[t.pos]? with
  | none => rw [hv] at h; cases h
  | some v =>
    rw [hv] at h
    cases h
    simp

lemma cellDec_pres {t t' : TapeState} (h : cellDec t = some t') :
    t'.pos = t.pos ∧ t'.data.length = t.data.length := by
  unfold cellDec at h
  cases hv : t.data[t.pos]? with
  | none => rw [hv] at h; cases h
  | some v =>
    rw [hv] at h
    cases h
    simp

lemma cellWrite_pres {b : Nat} {t t' : TapeState} (h : cellWrite b t = some t') :
    t'.pos = t.pos ∧ t'.data.length = t.data.length := by
  unfold cellWrite at h
  by_cases hb : t.pos < t.data.length
  · rw [if_pos hb] at h
    cases h
    simp
  · rw [if_neg hb] at h
    cases h

lemma usize_pred {pos n : Nat} (hpos : pos < n) (hU : n ≤ USIZE) (h0 : pos ≠ 0) :
    (pos + (USIZE - 1)) % USIZE = pos - 1 := by
  have hU1 : 1 ≤ USIZE := Nat.one_le_two_pow
  have heq : pos + (USIZE - 1) = (pos - 1) + USIZE := by omega
  rw [heq, Nat.add_mod_right]
  exact Nat.mod_eq_of_lt (by omega)

lemma usize_succ {pos n : Nat} (hlt : pos + 1 < n) (hU : n ≤ USIZE) :
    (pos + 1) % USIZE = pos + 1 :=
  Nat.mod_eq_of_lt (lt_of_lt_of_le hlt hU)

/-- The interpreter loop exits (`halt`) exactly when the instruction
pointer has left the program, whatever the tape implementation. -/
lemma step_halt_iff (T : TapeImpl) (prog : List Op) (s s' : ExecState) :
    step T prog s = .halt s' ↔ prog[s.ip]? = none ∧ s' = s := by
  unfold step readStep liftTape
  cases hop : prog[s.ip]? with
  | none => simp [eq_comm]
  | some op =>
    cases op
    all_goals
      constructor
      · intro h
        repeat' split at h
        all_goals simp_all
      · rintro ⟨h, -⟩
        cases h

/-! Equation lemmas for `step` at a fetched instruction. -/

lemma step_inc {prog : List Op} {s : ExecState} (T : TapeImpl)
    (hop : prog[s.ip]? = some Op.inc) : step T prog s = liftTape T.inc s := by
  unfold step
  rw [hop]

lemma step_dec {prog : List Op} {s : ExecState} (T : TapeImpl)
    (hop : prog[s.ip]? = some Op.dec) : step T prog s = liftTape T.dec s := by
  unfold step
  rw [hop]

lemma step_left {prog : List Op} {s : ExecState} (T : TapeImpl)
    (hop : prog[s.ip]? = some Op.left) : step T prog s = liftTape T.go_left s := by
  unfold step
  rw [hop]

lemma step_right {prog : List Op} {s : ExecState} (T : TapeImpl)
    (hop : prog[s.ip]? = some Op.right) : step T prog s = liftTape T.go_right s := by
  unfold step
  rw [hop]

lemma step_read {prog : List Op} {s : ExecState} (T : TapeImpl)
    (hop : prog[s.ip]? = some Op.read) : step T prog s = readStep T s := by
  unfold step
  rw [hop]

lemma step_write {prog : List Op} {s : ExecState} (T : TapeImpl)
    (hop : prog[s.ip]? = some Op.write) :
    step T prog s =
      match T.read s.tape with
      | some b => .cont { s with output := s.output ++ [b], ip := s.ip + 1 }
      | none => .fault := by
  unfold step
  rw [hop]

lemma step_loopStart {prog : List Op} {s : ExecState} {target : Nat} (T : TapeImpl)
    (hop : prog[s.ip]? = some (Op.loopStart target)) :
    step T prog s =
      match T.read s.tape with
      | some v => .cont { s with ip := if v = 0 then target + 1 else s.ip + 1 }
      | none => .fault := by
  unfold step
  rw [hop]

lemma step_loopEnd {prog : List Op} {s : ExecState} {target : Nat} (T : TapeImpl)
    (hop : prog[s.ip]? = some (Op.loopEnd target)) :
    step T prog s =
      match T.read s.tape with
      | some v => .cont { s with ip := if v ≠ 0 then target + 1 else s.ip + 1 }
      | none => .fault := by
  unfold step
  rw [hop]

/-- One continuing step of the edge-respecting run is reproduced exactly by
both source tapes, and it preserves the cursor/length invariant. -/
lemma step_cont_agree {n : Nat} (hU : n ≤ USIZE) {prog : List Op} {s s' : ExecState}
    (hpos : s.tape.pos < n) (hlen : s.tape.data.length = n)
    (h : step strictTape prog s = .cont s') :
    step simpleTape prog s = .cont s' ∧ step circularTape prog s = .cont s' ∧
      s'.tape.pos < n ∧ s'.tape.data.length = n := by
  cases hop : prog[s.ip]? with
  | none =>
    rw [(step_halt_iff strictTape prog s s).mpr ⟨hop, rfl⟩] at h
    cases h
  | some op =>
    cases op with
    | inc =>
      rw [step_inc strictTape hop] at h
      rw [step_inc simpleTape hop, step_inc circularTape hop]
      refine ⟨h, h, ?_⟩
      unfold liftTape at h
      rw [show strictTape.inc = cellInc from rfl] at h
      cases hc : cellInc s.tape with
      | none => rw [hc] at h; cases h
      | some t =>
        rw [hc] at h
        injection h with h2
        subst h2
        obtain ⟨hp, hl⟩ := cellInc_pres hc
        exact ⟨by simp [hp, hpos], by simp [hl, hlen]⟩
    | dec =>
      rw [step_dec strictTape hop] at h
      rw [step_dec simpleTape hop, step_dec circularTape hop]
      refine ⟨h, h, ?_⟩
      unfold liftTape at h
      rw [show strictTape.dec = cellDec from rfl] at h
      cases hc : cellDec s.tape with
      | none => rw [hc] at h; cases h
      | some t =>
        rw [hc] at h
        injection h with h2
        subst h2
        obtain ⟨hp, hl⟩ := cellDec_pres hc
        exact ⟨by simp [hp, hpos], by simp [hl, hlen]⟩
    | write =>
      rw [step_write strictTape hop] at h
      rw [step_write simpleTape hop, step_write circularTape hop]
      refine ⟨h, h, ?_⟩
      rw [show strictTape.read = cellRead from rfl] at h
      cases hc : cellRead s.tape with
      | none => rw [hc] at h; cases h
      | some b =>
        rw [hc] at h
        injection h with h2
        subst h2
        exact ⟨by simp [hpos], by simp [hlen]⟩
    | loopStart target =>
      rw [step_loopStart strictTape hop] at h
      rw [step_loopStart simpleTape hop, step_loopStart circularTape hop]
      refine ⟨h, h, ?_⟩
      rw [show strictTape.read = cellRead from rfl] at h
      cases hc : cellRead s.tape with
      | none => rw [hc] at h; cases h
      | some v =>
        rw [hc] at h
        injection h with h2
        subst h2
        exact ⟨by simp [hpos], by simp [hlen]⟩
    | loopEnd target =>
      rw [step_loopEnd strictTape hop] at h
      rw [step_loopEnd simpleTape hop, step_loopEnd circularTape hop]
      refine ⟨h, h, ?_⟩
      rw [show strictTape.read = cellRead from rfl] at h
      cases hc : cellRead s.tape with
      | none => rw [hc] at h; cases h
      | some v =>
        rw [hc] at h
        injection h with h2
        subst h2
        exact ⟨by simp [hpos], by simp [hlen]⟩
    | read =>
      rw [step_read strictTape hop] at h
      rw [step_read simpleTape hop, step_read circularTape hop]
      unfold readStep at h ⊢
      cases hin : s.input with
      | nil =>
        rw [hin] at h
        refine ⟨h, h, ?_⟩
        unfold liftTape at h
        rw [show strictTape.write = cellWrite from rfl] at h
        cases hc : cellWrite 0 s.tape with
        | none => rw [hc] at h; cases h
        | some t =>
          rw [hc] at h
          injection h with h2
          subst h2
          obtain ⟨hp, hl⟩ := cellWrite_pres hc
          exact ⟨by simp [hp, hpos], by simp [hl, hlen]⟩
      | cons ev restIn =>
        rw [hin] at h
        cases ev with
        | ok b =>
          refine ⟨h, h, ?_⟩
          replace h : (match cellWrite b s.tape with
              | some t => StepRes.cont { s with tape := t, input := restIn, ip := s.ip + 1 }
              | none => StepRes.fault) = StepRes.cont s' := h
          cases hc : cellWrite b s.tape with
          | none => rw [hc] at h; cases h
          | some t =>
            rw [hc] at h
            injection h with h2
            subst h2
            obtain ⟨hp, hl⟩ := cellWrite_pres hc
            exact ⟨by simp [hp, hpos], by simp [hl, hlen]⟩
        | ioErr =>
          refine ⟨h, h, ?_⟩
          injection h with h2
          subst h2
          exact ⟨by simp [hpos], by simp [hlen]⟩
    | left =>
      rw [step_left strictTape hop] at h
      rw [step_left simpleTape hop, step_left circularTape hop]
      unfold liftTape at h ⊢
      rw [show strictTape.go_left =
            (fun t => if t.pos = 0 then none
              else some { t with pos := t.pos - 1 }) from rfl] at h
      simp only [] at h
      by_cases h0 : s.tape.pos = 0
      · rw [if_pos h0] at h
        cases h
      · rw [if_neg h0] at h
        injection h with h2
        subst h2
        have hlen0 : s.tape.data.length ≠ 0 := by omega
        refine ⟨?_, ?_, by simp; omega, by simp [hlen]⟩
        · rw [show simpleTape.go_left =
                (fun t => some { t with pos := (t.pos + (USIZE - 1)) % USIZE }) from rfl]
          simp only []
          rw [usize_pred hpos hU h0]
        · rw [show circularTape.go_left =
                (fun t => if t.data.length = 0 then none
                  else some { t with
                    pos := ((t.pos + (USIZE - 1)) % USIZE) % t.data.length }) from rfl]
          simp only []
          rw [if_neg hlen0, usize_pred hpos hU h0,
            Nat.mod_eq_of_lt (by omega : s.tape.pos - 1 < s.tape.data.length)]
    | right =>
      rw [step_right strictTape hop] at h
      rw [step_right simpleTape hop, step_right circularTape hop]
      unfold liftTape at h ⊢
      rw [show strictTape.go_right =
            (fun t => if t.pos + 1 < t.data.length then some { t with pos := t.pos + 1 }
              else none) from rfl] at h
      simp only [] at h
      by_cases hr : s.tape.pos + 1 < s.tape.data.length
      · rw [if_pos hr] at h
        injection h with h2
        subst h2
        have hlen0 : s.tape.data.length ≠ 0 := by omega
        refine ⟨?_, ?_, by simp; omega, by simp [hlen]⟩
        · rw [show simpleTape.go_right =
                (fun t => some { t with pos := (t.pos + 1) % USIZE }) from rfl]
          simp only []
          rw [usize_succ (by omega : s.tape.pos + 1 < n) hU]
        · rw [show circularTape.go_right =
                (fun t => if t.data.length = 0 then none
                  else some { t with pos := ((t.pos + 1) % USIZE) % t.data.length }) from rfl]
          simp only []
          rw [if_neg hlen0, usize_succ (by omega : s.tape.pos + 1 < n) hU,
            Nat.mod_eq_of_lt hr]
      · rw [if_neg hr] at h
        cases h

lemma run_succ (T : TapeImpl) (prog : List Op) (fuel : Nat) (s : ExecState) :
    run T prog (fuel + 1) s =
      match step T prog s with
      | .halt s' => some s'
      | .cont s' => run T prog fuel s'
      | .fault => none := rfl

/-- Any number of steps of the edge-respecting run that ends in normal
termination is reproduced exactly by both source tapes. -/
lemma run_agree {n : Nat} (hU : n ≤ USIZE) (prog : List Op) :
    ∀ (fuel : Nat) (s res : ExecState), s.tape.pos < n → s.tape.data.length = n →
      run strictTape prog fuel s = some res →
      run simpleTape prog fuel s = some res ∧ run circularTape prog fuel s = some res := by
  intro fuel
  induction fuel with
  | zero =>
    intro s res _ _ h
    cases h
  | succ fuel ih =>
    intro s res hpos hlen h
    rw [run_succ] at h
    cases hst : step strictTape prog s with
    | halt s2 =>
      rw [hst] at h
      injection h with h2
      subst h2
      obtain ⟨hop, h3⟩ := (step_halt_iff strictTape prog s _).mp hst
      subst h3
      refine ⟨?_, ?_⟩ <;>
        rw [run_succ, (step_halt_iff _ prog _ _).mpr ⟨hop, rfl⟩]
    | cont s2 =>
      rw [hst] at h
      obtain ⟨h1, h2, h3, h4⟩ := step_cont_agree hU hpos hlen hst
      obtain ⟨r1, r2⟩ := ih s2 res h3 h4 h
      exact ⟨by rw [run_succ, h1]; exact r1, by rw [run_succ, h2]; exact r2⟩
    | fault =>
      rw [hst] at h
      cases h

/-! Claim theorems. -/

/-- C1: the claim says that on every successful parse the returned
instruction sequence satisfies the mutual-target invariant with no
unresolved placeholder targets.  The code does not: `parse` succeeds on the
well-nested source `[]`, yet the emitted `loopStart` still carries the
placeholder target 0 (the instruction at index 0 is the `loopStart` itself,
not the matching `loopEnd` at index 1), so the invariant checker rejects
the result.  The source never patches the `LoopStart(0)` placeholder pushed
for `'['`. -/
theorem parse_returns_unresolved_loopStart_placeholder :
    parse "[]" = .ok [Op.loopStart 0, Op.loopEnd 0] ∧
    mutualTargetsB [Op.loopStart 0, Op.loopEnd 0] = false := ⟨rfl, rfl⟩

/-- C2: the claim says executing `[X]` (X a non-bracket instruction) from a
zero cell produces no output and no tape mutation, the loop body never
running.  With the unpatched `LoopStart(0)` target the jump on a zero cell
goes to instruction 0 and the following `ip += 1` lands INSIDE the loop
body: for `[.]` the body executes and one `0` byte is emitted. -/
theorem loop_skip_executes_body_and_outputs :
    parse "[.]" = .ok [Op.loopStart 0, Op.write, Op.loopEnd 0] ∧
    run simpleTape [Op.loopStart 0, Op.write, Op.loopEnd 0] 10 (initState 8 []) =
      some { ip := 3, tape := { pos := 0, data := List.replicate 8 0 },
             input := [], output := [0] } := ⟨rfl, rfl⟩

/-- C3: the claim says a `ReadByte` at end-of-stream leaves the current
cell unchanged.  In the code `input.read` returns `Ok(0)` at EOF with the
zero-initialised 1-byte buffer untouched, and the `Ok(_)` arm writes
`byte[0] = 0` into the cell: a cell holding 5 is overwritten with 0
(execution does continue without error, as the claim also says). -/
theorem read_on_eof_overwrites_cell_with_zero :
    run simpleTape [Op.read] 10
        { ip := 0, tape := { pos := 0, data := [5] }, input := [], output := [] } =
      some { ip := 1, tape := { pos := 0, data := [0] }, input := [], output := [] } := rfl

/-- C4: the claim says an I/O failure on `ReadByte` aborts execution and is
returned with its cause.  The code's `Err(_) => ()` arm silently discards
the failure: after a failing read the machine continues, terminates
normally (a `some` final state rather than any error outcome), and the
cell is untouched. -/
theorem read_io_failure_silently_ignored :
    run simpleTape [Op.read] 10
        { ip := 0, tape := { pos := 0, data := [5] },
          input := [ReadEvent.ioErr], output := [] } =
      some { ip := 1, tape := { pos := 0, data := [5] }, input := [], output := [] } := rfl

set_option maxRecDepth 100000 in
/-- C5: the claim says bounded-tape edge moves are reported as an explicit,
checked out-of-bounds error and the cursor never silently wraps.  In the
code `go_left` at cursor 0 silently wraps the `usize` cursor to
`2 ^ 64 - 1` and only a LATER cell access panics (out-of-bounds `Vec`
index, modelled `none`); `go_right` from the last index 1023 likewise
succeeds silently, placing the cursor at 1024. -/
theorem bounded_tape_edge_moves_wrap_silently :
    simpleTape.go_left { pos := 0, data := List.replicate 1024 0 } =
      some { pos := USIZE - 1, data := List.replicate 1024 0 } ∧
    simpleTape.read { pos := USIZE - 1, data := List.replicate 1024 0 } = none ∧
    simpleTape.go_right { pos := 1023, data := List.replicate 1024 0 } =
      some { pos := 1024, data := List.replicate 1024 0 } := ⟨rfl, rfl, rfl⟩

/-- C6: the claim says a circular tape of any capacity n > 0 wraps the
cursor from 0 to n - 1 on a left move.  The code computes
`(pos - 1) % len` in `usize`, i.e. `(2 ^ 64 - 1) % n` from cursor 0, which
is n - 1 only when n divides `2 ^ 64`: at capacity 3 the cursor lands on
`(2 ^ 64 - 1) % 3 = 0`, not 2. -/
theorem circular_tape_go_left_misses_wraparound :
    circularTape.go_left { pos := 0, data := List.replicate 3 0 } =
      some { pos := 0, data := List.replicate 3 0 } := rfl

set_option maxRecDepth 1000000 in
/-- C7: parsing and executing the quoted hello-world program with an empty
input source on a freshly zero-initialised 1024-cell bounded tape
terminates normally (within 1000 fuel) and writes exactly the bytes of
`Hello World!` followed by a newline. -/
theorem hello_world_writes_exact_output :
    (parse helloSrc).map
        (fun prog => (run simpleTape prog 1000 (initState 1024 [])).map
          (fun s => s.output)) = .ok (some helloBytes) := rfl

/-- C8: on both tape variants cell values wrap as unsigned 8-bit
quantities: incrementing a cell holding 255 yields 0 and decrementing a
cell holding 0 yields 255, with no other effect (only the current cell is
touched, via `List.set` at the cursor) and no failure. -/
theorem cell_arithmetic_wraps_mod_256 (t u : TapeState)
    (h255 : t.data[t.pos]? = some 255) (h0 : u.data[u.pos]? = some 0) :
    simpleTape.inc t = some { t with data := t.data.set t.pos 0 } ∧
    circularTape.inc t = some { t with data := t.data.set t.pos 0 } ∧
    simpleTape.dec u = some { u with data := u.data.set u.pos 255 } ∧
    circularTape.dec u = some { u with data := u.data.set u.pos 255 } := by
  refine ⟨?_, ?_, ?_, ?_⟩ <;>
    simp [simpleTape, circularTape, cellInc, cellDec, h255, h0]

theorem cell_arithmetic_wraps_mod_256_witness :
    simpleTape.inc { pos := 0, data := [255] } = some { pos := 0, data := [0] } ∧
    circularTape.inc { pos := 0, data := [255] } = some { pos := 0, data := [0] } ∧
    simpleTape.dec { pos := 0, data := [0] } = some { pos := 0, data := [255] } ∧
    circularTape.dec { pos := 0, data := [0] } = some { pos := 0, data := [255] } :=
  cell_arithmetic_wraps_mod_256 { pos := 0, data := [255] } { pos := 0, data := [0] } rfl rfl

/-- C9: `execute` is deterministic: two runs of the same program from the
same initial state with the same input events yield the same result — the
same final tape, cursor, output byte sequence and outcome. -/
theorem execute_deterministic (T : TapeImpl) (prog : List Op) (fuel : Nat)
    (s : ExecState) (r₁ r₂ : Option ExecState)
    (h₁ : run T prog fuel s = r₁) (h₂ : run T prog fuel s = r₂) : r₁ = r₂ :=
  h₁.symm.trans h₂

theorem execute_deterministic_witness :
    (some { ip := 1, tape := { pos := 0, data := [1] }, input := [], output := [] }
        : Option ExecState) =
      some { ip := 1, tape := { pos := 0, data := [1] }, input := [], output := [] } :=
  execute_deterministic simpleTape [Op.inc] 2 (initState 1 [])
    (some { ip := 1, tape := { pos := 0, data := [1] }, input := [], output := [] })
    (some { ip := 1, tape := { pos := 0, data := [1] }, input := [], output := [] }) rfl rfl

/-- C10: away from the edges the bounded and circular tapes are
observationally equivalent: whenever the edge-respecting run (no left move
from cursor 0, no right move from the last cell, normal termination —
captured by a successful `strictTape` run) reaches a final state, the
bounded `SimpleTape` run and the circular `CircularTape` run of the same
program, input and capacity reach the IDENTICAL final state: same output
bytes, same cells, same cursor. -/
theorem bounded_circular_agree_off_edges (n fuel : Nat) (prog : List Op)
    (inp : List ReadEvent) (res : ExecState) (hn : 0 < n) (hU : n ≤ USIZE)
    (h : run strictTape prog fuel (initState n inp) = some res) :
    run simpleTape prog fuel (initState n inp) = some res ∧
    run circularTape prog fuel (initState n inp) = some res :=
  run_agree hU prog fuel (initState n inp) res (by simpa [initState] using hn)
    (by simp [initState]) h

theorem bounded_circular_agree_off_edges_witness :
    run simpleTape [Op.inc, Op.right, Op.inc] 10 (initState 4 []) =
      some { ip := 3, tape := { pos := 1, data := [1, 1, 0, 0] },
             input := [], output := [] } ∧
    run circularTape [Op.inc, Op.right, Op.inc] 10 (initState 4 []) =
      some { ip := 3, tape := { pos := 1, data := [1, 1, 0, 0] },
             input := [], output := [] } :=
  bounded_circular_agree_off_edges 4 10 [Op.inc, Op.right, Op.inc] []
    { ip := 3, tape := { pos := 1, data := [1, 1, 0, 0] }, input := [], output := [] }
    (by omega) (by norm_num [USIZE]) rfl
